import Mathlib

/-!
Verification of the eeg-tutor backend against its specification.

The Python source is shallowly embedded: real-valued quantities (Python
floats) are modelled as exact rationals `ℚ`, timestamps of flashcards are
in days and timestamps of EEG samples in seconds, mutable objects become
explicit state passing, and fallible operations return `Option`.
Calls into external libraries (scipy's `welch`/`hann` window, sklearn's
`train_test_split`) are parameters of the embedded functions, since their
code is not part of this repository; everything computed by the
repository's own code is embedded directly.
-/

/-- One entry of `Flashcard.confusion_history`: a confusion score together
with the time (in days) at which it was recorded. -/
structure ConfusionEntry where
  score : ℚ
  timestamp : ℚ
deriving DecidableEq

/-- The spaced-repetition state of one flashcard
(`adaptive_learning_backend.py`, class `Flashcard`). -/
structure Flashcard where
  id : String
  front : String
  back : String
  ease_factor : ℚ
  interval : ℚ
  repetitions : ℕ
  next_review : ℚ
  confusion_history : List ConfusionEntry
  avg_confusion : ℚ
  last_confusion : Option ℚ
deriving DecidableEq

/-- `Flashcard.__init__`: ease factor 2.5, interval 1 day, no repetitions,
due immediately, empty history, neutral average confusion 5. -/
def newFlashcard (front back id : String) (now : ℚ) : Flashcard :=
  { id := id, front := front, back := back,
    ease_factor := 2.5, interval := 1, repetitions := 0,
    next_review := now, confusion_history := [],
    avg_confusion := 5, last_confusion := none }

/-- `np.mean` of a list of rationals (only applied to non-empty lists in
the embedded code paths). -/
def mean (xs : List ℚ) : ℚ := xs.sum / xs.length

/-- `Flashcard.update_from_confusion(confusion_score)`, with the current
time `now` (in days) made explicit.  Appends to the history, recomputes
`avg_confusion` from the most recent (at most 10) entries, adjusts
`interval` and `ease_factor` by the three-way branch on the score, sets
`next_review = now + interval` and increments `repetitions`. -/
def update_from_confusion (card : Flashcard) (confusion_score : ℚ) (now : ℚ) : Flashcard :=
  let history := card.confusion_history ++ [⟨confusion_score, now⟩]
  let recent_scores :=
    if history.length > 10 then
      (history.drop (history.length - 10)).map (·.score)
    else
      history.map (·.score)
  let avg := mean recent_scores
  let new_interval :=
    if confusion_score ≥ 7 then max 0.1 (card.interval * 0.5)
    else if confusion_score ≥ 4 then card.interval * 1.0
    else min 30 (card.interval * 1.5)
  let new_ease :=
    if confusion_score ≥ 7 then max 1.3 (card.ease_factor - 0.2)
    else if confusion_score ≥ 4 then card.ease_factor
    else min 3.0 (card.ease_factor + 0.1)
  { card with
      last_confusion := some confusion_score,
      confusion_history := history,
      avg_confusion := avg,
      interval := new_interval,
      ease_factor := new_ease,
      next_review := now + new_interval,
      repetitions := card.repetitions + 1 }

/-- C1: `update_from_confusion` updates `(interval, ease_factor)` exactly by
the three-way branch on the score (halve-and-harden for score ≥ 7, unchanged
for 4 ≤ score < 7, grow-and-ease for score < 4, with the stated caps), sets
`next_review = now + interval'` (in days) and increments `repetitions` by one;
in particular from ease 2.5 and interval 1 a score of 8 yields (0.5, 2.3) and
a further score of 8 yields (0.25, 2.1). -/
theorem C1_update_from_confusion_spec (card : Flashcard) (s now : ℚ) :
    ((7 ≤ s →
        (update_from_confusion card s now).interval = max 0.1 (card.interval * 0.5) ∧
        (update_from_confusion card s now).ease_factor = max 1.3 (card.ease_factor - 0.2)) ∧
     (4 ≤ s → s < 7 →
        (update_from_confusion card s now).interval = card.interval ∧
        (update_from_confusion card s now).ease_factor = card.ease_factor) ∧
     (s < 4 →
        (update_from_confusion card s now).interval = min 30 (card.interval * 1.5) ∧
        (update_from_confusion card s now).ease_factor = min 3.0 (card.ease_factor + 0.1)) ∧
     (update_from_confusion card s now).next_review
        = now + (update_from_confusion card s now).interval ∧
     (update_from_confusion card s now).repetitions = card.repetitions + 1) ∧
    ((update_from_confusion (newFlashcard "f" "b" "c" 0) 8 0).interval = 0.5 ∧
     (update_from_confusion (newFlashcard "f" "b" "c" 0) 8 0).ease_factor = 2.3 ∧
     (update_from_confusion (update_from_confusion (newFlashcard "f" "b" "c" 0) 8 0) 8 0).interval
        = 0.25 ∧
     (update_from_confusion (update_from_confusion (newFlashcard "f" "b" "c" 0) 8 0) 8 0).ease_factor
        = 2.1) := by
  refine ⟨⟨?_, ?_, ?_, ?_, ?_⟩,
    by norm_num [update_from_confusion, newFlashcard, max_def, min_def],
    by norm_num [update_from_confusion, newFlashcard, max_def, min_def],
    by norm_num [update_from_confusion, newFlashcard, max_def, min_def],
    by norm_num [update_from_confusion, newFlashcard, max_def, min_def]⟩
  · intro h7
    simp only [update_from_confusion]
    rw [if_pos h7, if_pos h7]
    exact ⟨rfl, rfl⟩
  · intro h4 h7
    have h7' : ¬ (7 : ℚ) ≤ s := not_le.mpr h7
    simp only [update_from_confusion]
    rw [if_neg h7', if_pos h4, if_neg h7', if_pos h4]
    exact ⟨by norm_num, rfl⟩
  · intro h4
    have h7' : ¬ (7 : ℚ) ≤ s := not_le.mpr (lt_trans h4 (by norm_num))
    have h4' : ¬ (4 : ℚ) ≤ s := not_le.mpr h4
    simp only [update_from_confusion]
    rw [if_neg h7', if_neg h4', if_neg h7', if_neg h4']
    exact ⟨rfl, rfl⟩
  · rfl
  · rfl

/-- C1 witness: instantiating the branch hypotheses at concrete inputs. -/
theorem C1_update_from_confusion_spec_witness :
    (update_from_confusion (newFlashcard "f" "b" "c" 0) 8 0).interval
      = max 0.1 ((newFlashcard "f" "b" "c" 0).interval * 0.5) ∧
    (update_from_confusion (newFlashcard "f" "b" "c" 0) 5 0).interval
      = (newFlashcard "f" "b" "c" 0).interval ∧
    (update_from_confusion (newFlashcard "f" "b" "c" 0) 1 0).interval
      = min 30 ((newFlashcard "f" "b" "c" 0).interval * 1.5) :=
  ⟨((C1_update_from_confusion_spec (newFlashcard "f" "b" "c" 0) 8 0).1.1
      (by norm_num)).1,
   ((C1_update_from_confusion_spec (newFlashcard "f" "b" "c" 0) 5 0).1.2.1
      (by norm_num) (by norm_num)).1,
   ((C1_update_from_confusion_spec (newFlashcard "f" "b" "c" 0) 1 0).1.2.2.1
      (by norm_num)).1⟩

/-- C2 counterexample: eleven consecutive updates of a fresh card leave
eleven entries in `confusion_history` — the code never truncates it, so the
claimed "at most 10 entries" invariant is false. -/
theorem C2_history_counterexample :
    ((List.range 11).foldl (fun c i => update_from_confusion c 5 i)
        (newFlashcard "f" "b" "c" 0)).confusion_history.length = 11 ∧
    ¬ ((List.range 11).foldl (fun c i => update_from_confusion c 5 i)
        (newFlashcard "f" "b" "c" 0)).confusion_history.length ≤ 10 := by
  refine ⟨?_, ?_⟩ <;>
    simp [List.range_succ, update_from_confusion, newFlashcard]

/-- C2 amended: `update_from_confusion` appends one entry to
`confusion_history` and never truncates it, so the history length grows by
exactly one on every update (and can exceed 10); only `avg_confusion` is
restricted to the most recent at-most-10 entries. -/
theorem C2_history_growth (card : Flashcard) (s now : ℚ) :
    (update_from_confusion card s now).confusion_history
        = card.confusion_history ++ [⟨s, now⟩] ∧
    (update_from_confusion card s now).confusion_history.length
        = card.confusion_history.length + 1 ∧
    (update_from_confusion card s now).avg_confusion
        = mean (((card.confusion_history
              ++ [({ score := s, timestamp := now } : ConfusionEntry)]).drop
            (card.confusion_history.length + 1 - 10)).map ConfusionEntry.score) := by
  have hlen : (card.confusion_history
      ++ [({ score := s, timestamp := now } : ConfusionEntry)]).length
      = card.confusion_history.length + 1 := by simp
  refine ⟨rfl, by simp [update_from_confusion], ?_⟩
  simp only [update_from_confusion, hlen]
  by_cases h : card.confusion_history.length + 1 > 10
  · rw [if_pos h]
  · rw [if_neg h]
    have h0 : card.confusion_history.length + 1 - 10 = 0 := by omega
    rw [h0, List.drop_zero]

/-- Cards due for review: `next_review <= now`
(`AdaptiveLearningSystem.get_next_flashcard`). -/
def due_filter (cards : List Flashcard) (now : ℚ) : List Flashcard :=
  cards.filter (fun c => c.next_review ≤ now)

/-- `sorted(self.flashcards.values(), key=lambda x: x.avg_confusion,
reverse=True)`: Python's sort is stable, and so is `List.insertionSort`
with the non-strict descending relation. -/
def sorted_by_confusion (cards : List Flashcard) : List Flashcard :=
  cards.insertionSort (fun a b => b.avg_confusion ≤ a.avg_confusion)

/-- The candidate list over which `get_next_flashcard` maximises: the due
cards, or — when none is due — the 5 cards with highest `avg_confusion`. -/
def due_cards_of (cards : List Flashcard) (now : ℚ) : List Flashcard :=
  let due := due_filter cards now
  if due.isEmpty then (sorted_by_confusion cards).take 5 else due

/-- `max(0, (now - card.next_review).total_seconds() / 3600)`: timestamps
are in days, so the difference in hours is the difference times 24. -/
def hours_overdue (now : ℚ) (card : Flashcard) : ℚ :=
  max 0 ((now - card.next_review) * 24)

/-- `priority_score(card)` from `get_next_flashcard`. -/
def priority_score (now : ℚ) (card : Flashcard) : ℚ :=
  card.avg_confusion * 2 + hours_overdue now card

/-- Accumulator loop of Python's `max(..., key=...)`: keeps the current
best and replaces it only on a strictly larger key. -/
def pyMaxGo {α : Type} (key : α → ℚ) (best : α) : List α → α
  | [] => best
  | x :: xs => pyMaxGo key (if key best < key x then x else best) xs

/-- Python's `max(l, key=key)`: `none` on an empty list, otherwise the
first element attaining the maximal key. -/
def pyMax {α : Type} (key : α → ℚ) : List α → Option α
  | [] => none
  | c :: cs => some (pyMaxGo key c cs)

/-- `AdaptiveLearningSystem.get_next_flashcard`, restricted to its pure
card-selection logic (the card collection is passed as a list in dict
insertion order, the clock as `now`). -/
def get_next_flashcard_sel (cards : List Flashcard) (now : ℚ) : Option Flashcard :=
  if cards.isEmpty then none
  else pyMax (priority_score now) (due_cards_of cards now)

theorem pyMaxGo_first_argmax {α : Type} (key : α → ℚ) (l : List α) :
    ∀ best : α, ∃ l1 l2,
      best :: l = l1 ++ pyMaxGo key best l :: l2 ∧
      (∀ x ∈ l1, key x < key (pyMaxGo key best l)) ∧
      (∀ x ∈ l2, key x ≤ key (pyMaxGo key best l)) := by
  induction l with
  | nil => exact fun best => ⟨[], [], rfl, by simp, by simp⟩
  | cons x xs ih =>
    intro best
    by_cases h : key best < key x
    · obtain ⟨l1, l2, hdec, hl1, hl2⟩ := ih x
      have hstep : pyMaxGo key best (x :: xs) = pyMaxGo key x xs := by
        simp [pyMaxGo, h]
      have hbm : key best < key (pyMaxGo key x xs) := by
        rcases l1 with _ | ⟨y, l1'⟩
        · simp only [List.nil_append, List.cons.injEq] at hdec
          exact hdec.1 ▸ h
        · simp only [List.cons_append, List.cons.injEq] at hdec
          exact lt_trans (hdec.1 ▸ h) (hl1 y (List.mem_cons_self y l1'))
      refine ⟨best :: l1, l2, ?_, ?_, ?_⟩
      · rw [hstep, List.cons_append, ← hdec]
      · intro z hz
        rcases List.mem_cons.mp hz with hz | hz
        · rw [hstep, hz]; exact hbm
        · rw [hstep]; exact hl1 z hz
      · intro z hz; rw [hstep]; exact hl2 z hz
    · obtain ⟨l1, l2, hdec, hl1, hl2⟩ := ih best
      have hstep : pyMaxGo key best (x :: xs) = pyMaxGo key best xs := by
        simp [pyMaxGo, h]
      rcases l1 with _ | ⟨y, l1'⟩
      · simp only [List.nil_append, List.cons.injEq] at hdec
        refine ⟨[], x :: xs, ?_, by simp, ?_⟩
        · rw [hstep, List.nil_append, ← hdec.1]
        · intro z hz
          rw [hstep, ← hdec.1]
          rcases List.mem_cons.mp hz with hz | hz
          · exact hz ▸ not_lt.mp h
          · exact hdec.1 ▸ (hl2 z (hdec.2 ▸ hz))
      · simp only [List.cons_append, List.cons.injEq] at hdec
        have hbest : key best < key (pyMaxGo key best xs) := by
          exact hdec.1 ▸ hl1 y (List.mem_cons_self y l1')
        refine ⟨best :: x :: l1', l2, ?_, ?_, ?_⟩
        · rw [hstep, List.cons_append, List.cons_append, ← hdec.2]
        · intro z hz
          rw [hstep]
          rcases List.mem_cons.mp hz with hz | hz
          · exact hz ▸ hbest
          · rcases List.mem_cons.mp hz with hz | hz
            · exact hz ▸ lt_of_le_of_lt (not_lt.mp h) hbest
            · exact hl1 z (List.mem_cons_of_mem y hz)
        · intro z hz; rw [hstep]; exact hl2 z hz

theorem pyMax_first_argmax {α : Type} (key : α → ℚ) (l : List α) (m : α)
    (h : pyMax key l = some m) :
    ∃ l1 l2, l = l1 ++ m :: l2 ∧
      (∀ x ∈ l1, key x < key m) ∧ (∀ x ∈ l2, key x ≤ key m) := by
  cases l with
  | nil => simp [pyMax] at h
  | cons c cs =>
    obtain ⟨l1, l2, hdec, h1, h2⟩ := pyMaxGo_first_argmax key cs c
    have hm : pyMaxGo key c cs = m := by simpa [pyMax] using h
    rw [hm] at hdec h1 h2
    exact ⟨l1, l2, hdec, h1, h2⟩

theorem pyMax_mem_and_le {α : Type} (key : α → ℚ) (l : List α) (m : α)
    (h : pyMax key l = some m) :
    m ∈ l ∧ ∀ x ∈ l, key x ≤ key m := by
  obtain ⟨l1, l2, hdec, h1, h2⟩ := pyMax_first_argmax key l m h
  subst hdec
  refine ⟨List.mem_append_right _ (List.mem_cons_self m l2), ?_⟩
  intro x hx
  rcases List.mem_append.mp hx with hx | hx
  · exact le_of_lt (h1 x hx)
  · rcases List.mem_cons.mp hx with hx | hx
    · exact hx ▸ le_refl _
    · exact h2 x hx

theorem due_cards_of_ne_nil (cards : List Flashcard) (now : ℚ)
    (h : cards ≠ []) : due_cards_of cards now ≠ [] := by
  unfold due_cards_of
  by_cases hd : (due_filter cards now).isEmpty
  · rw [if_pos hd]
    intro hnil
    have hlen := congrArg List.length hnil
    simp only [List.length_take, sorted_by_confusion,
      List.length_insertionSort, List.length_nil] at hlen
    have : cards.length = 0 := by omega
    exact h (List.length_eq_zero.mp this)
  · rw [if_neg hd]
    exact fun hnil => hd (by simp [hnil])

theorem pyMax_isSome {α : Type} (key : α → ℚ) (l : List α) (h : l ≠ []) :
    ∃ m, pyMax key l = some m := by
  cases l with
  | nil => exact absurd rfl h
  | cons c cs => exact ⟨pyMaxGo key c cs, rfl⟩

/-- Due card with average confusion 2 for the C3 example. -/
def cardAvg2 : Flashcard :=
  { id := "a", front := "fa", back := "ba", ease_factor := 2.5, interval := 1,
    repetitions := 0, next_review := 0, confusion_history := [],
    avg_confusion := 2, last_confusion := none }

/-- Due card with average confusion 5 for the C3 example. -/
def cardAvg5 : Flashcard :=
  { id := "b", front := "fb", back := "bb", ease_factor := 2.5, interval := 1,
    repetitions := 0, next_review := 0, confusion_history := [],
    avg_confusion := 5, last_confusion := none }

/-- Due card with average confusion 8 for the C3 example. -/
def cardAvg8 : Flashcard :=
  { id := "c", front := "fc", back := "bc", ease_factor := 2.5, interval := 1,
    repetitions := 0, next_review := 0, confusion_history := [],
    avg_confusion := 8, last_confusion := none }

/-- C3: `get_next_flashcard` returns nothing exactly when there are no cards
at all; any returned card belongs to the candidate list (due cards, else the
5 most-confused cards) and maximises `priority = avg_confusion * 2 +
hours_overdue` over it; in particular among three equally-overdue due cards
with average confusion 2, 5 and 8 the one with average confusion 8 wins. -/
theorem C3_next_card_selection (cards : List Flashcard) (now : ℚ) :
    ((get_next_flashcard_sel cards now = none ↔ cards = []) ∧
     (∀ c, get_next_flashcard_sel cards now = some c →
        c ∈ due_cards_of cards now ∧
        ∀ d ∈ due_cards_of cards now,
          priority_score now d ≤ priority_score now c)) ∧
    get_next_flashcard_sel [cardAvg2, cardAvg5, cardAvg8] 0 = some cardAvg8 := by
  refine ⟨⟨⟨?_, ?_⟩, ?_⟩, ?_⟩
  · intro hnone
    by_contra hne
    unfold get_next_flashcard_sel at hnone
    rw [if_neg (by simpa using hne)] at hnone
    obtain ⟨m, hm⟩ :=
      pyMax_isSome (priority_score now) _ (due_cards_of_ne_nil cards now hne)
    rw [hm] at hnone
    cases hnone
  · intro h
    subst h
    rfl
  · intro c hc
    unfold get_next_flashcard_sel at hc
    by_cases he : cards.isEmpty
    · rw [if_pos he] at hc; cases hc
    · rw [if_neg he] at hc
      exact pyMax_mem_and_le _ _ _ hc
  · norm_num [get_next_flashcard_sel, due_cards_of, due_filter, pyMax,
      pyMaxGo, priority_score, hours_overdue, cardAvg2, cardAvg5, cardAvg8,
      max_def]

/-- C3 witness: the selection theorem applied to the concrete three-card
example. -/
theorem C3_next_card_selection_witness :
    cardAvg8 ∈ due_cards_of [cardAvg2, cardAvg5, cardAvg8] 0 ∧
    ∀ d ∈ due_cards_of [cardAvg2, cardAvg5, cardAvg8] 0,
      priority_score 0 d ≤ priority_score 0 cardAvg8 :=
  (C3_next_card_selection [cardAvg2, cardAvg5, cardAvg8] 0).1.2 cardAvg8
    (C3_next_card_selection [cardAvg2, cardAvg5, cardAvg8] 0).2

/-- Due card with priority tied with `cardTieB` but larger repetition count
and larger id, listed first. -/
def cardTieA : Flashcard :=
  { id := "2", front := "fA", back := "bA", ease_factor := 2.5, interval := 1,
    repetitions := 5, next_review := 0, confusion_history := [],
    avg_confusion := 5, last_confusion := none }

/-- Due card with priority tied with `cardTieA` but lower repetition count
and smaller id, listed second. -/
def cardTieB : Flashcard :=
  { id := "1", front := "fB", back := "bB", ease_factor := 2.5, interval := 1,
    repetitions := 0, next_review := 0, confusion_history := [],
    avg_confusion := 5, last_confusion := none }

/-- C4 counterexample: two due cards with equal priority; the claim demands
the one with the lower repetition count (and smaller id), but the code's
`max` keeps the first card of the collection, which has the *higher*
repetition count and the larger id. -/
theorem C4_tie_break_counterexample :
    get_next_flashcard_sel [cardTieA, cardTieB] 0 = some cardTieA ∧
    priority_score 0 cardTieA = priority_score 0 cardTieB ∧
    cardTieB.repetitions < cardTieA.repetitions ∧
    cardTieA ≠ cardTieB := by
  refine ⟨?_, ?_, ?_, ?_⟩
  · norm_num [get_next_flashcard_sel, due_cards_of, due_filter, pyMax,
      pyMaxGo, priority_score, hours_overdue, cardTieA, cardTieB, max_def]
  · norm_num [priority_score, hours_overdue, cardTieA, cardTieB, max_def]
  · norm_num [cardTieA, cardTieB]
  · decide

/-- C4 amended: among candidates with equal maximal priority,
`get_next_flashcard` returns the one occurring first in the collection's
iteration order (Python's `max` keeps the first maximiser); repetition count
and card id are not consulted. -/
theorem C4_first_position_tie_break (cards : List Flashcard) (now : ℚ)
    (c : Flashcard) (h : get_next_flashcard_sel cards now = some c) :
    ∃ l1 l2, due_cards_of cards now = l1 ++ c :: l2 ∧
      (∀ x ∈ l1, priority_score now x < priority_score now c) ∧
      (∀ x ∈ l2, priority_score now x ≤ priority_score now c) := by
  unfold get_next_flashcard_sel at h
  by_cases he : cards.isEmpty
  · rw [if_pos he] at h; cases h
  · rw [if_neg he] at h
    exact pyMax_first_argmax _ _ _ h

/-- C4 witness: the first-position tie-break applied to the concrete tied
pair. -/
theorem C4_first_position_tie_break_witness :
    ∃ l1 l2, due_cards_of [cardTieA, cardTieB] 0 = l1 ++ cardTieA :: l2 ∧
      (∀ x ∈ l1, priority_score 0 x < priority_score 0 cardTieA) ∧
      (∀ x ∈ l2, priority_score 0 x ≤ priority_score 0 cardTieA) :=
  C4_first_position_tie_break [cardTieA, cardTieB] 0 cardTieA
    (by norm_num [get_next_flashcard_sel, due_cards_of, due_filter, pyMax,
      pyMaxGo, priority_score, hours_overdue, cardTieA, cardTieB, max_def])

/-- One EEG sample as built by `eeg_handler`: a timestamp (seconds) and the
four channel values `tp9`, `af7`, `af8`, `tp10`.  The handlers always store
all four channels, so samples are full records. -/
structure EEGSample where
  timestamp : ℚ
  tp9 : ℚ
  af7 : ℚ
  af8 : ℚ
  tp10 : ℚ
deriving DecidableEq

/-- The channel iteration order of `EEGProcessor.extract_features`:
`['tp9', 'af7', 'af8', 'tp10']`, with the field projection standing for
`sample[channel]`. -/
def channels : List (String × (EEGSample → ℚ)) :=
  [("tp9", EEGSample.tp9), ("af7", EEGSample.af7),
   ("af8", EEGSample.af8), ("tp10", EEGSample.tp10)]

/-- `EEGProcessor.freq_bands`: the five fixed frequency bands. -/
def freq_bands : List (String × ℚ × ℚ) :=
  [("delta", 0.5, 4), ("theta", 4, 8), ("alpha", 8, 13),
   ("beta", 13, 30), ("gamma", 30, 50)]

/-- Loop of `np.argmax`: first index of the maximal value. -/
def argmax_go (best : ℚ) (bestIdx i : ℕ) : List ℚ → ℕ
  | [] => bestIdx
  | x :: xs =>
    if best < x then argmax_go x i (i + 1) xs
    else argmax_go best bestIdx (i + 1) xs

/-- `np.argmax` over a list (0 on the empty list, which the embedded code
never hits with a non-degenerate PSD). -/
def np_argmax : List ℚ → ℕ
  | [] => 0
  | x :: xs => argmax_go x 0 1 xs

/-- The per-channel feature block of `EEGProcessor.extract_features`: the
five band powers (mean PSD over the band mask), the total power (mean PSD)
and the peak frequency.  `welch` stands for `scipy.signal.welch` (returning
the frequency grid and the PSD) and `hann` for `scipy.signal.windows.hann`;
both are external-library calls and therefore parameters. -/
def band_block (welch : List ℚ → List ℚ × List ℚ) (hann : ℕ → List ℚ)
    (eeg_data : List EEGSample) (channel : String) (proj : EEGSample → ℚ) :
    List (String × ℚ) :=
  let channel_data := eeg_data.map proj
  if channel_data.length < 256 then []
  else
    let windowed := channel_data.zipWith (· * ·) (hann channel_data.length)
    let fp := welch windowed
    let freqs := fp.1
    let psd := fp.2
    (freq_bands.map (fun bd =>
      let band_power :=
        mean (((freqs.zip psd).filter
          (fun q => decide (bd.2.1 ≤ q.1) && decide (q.1 ≤ bd.2.2))).map (·.2))
      (channel ++ "_" ++ bd.1, band_power)))
    ++ [(channel ++ "_total_power", mean psd),
        (channel ++ "_peak_freq", freqs.getD (np_argmax psd) 0)]

/-- `EEGProcessor.extract_features(eeg_data)`: `none` (the hard failure)
below 256 samples, otherwise the per-channel feature blocks in channel
order. -/
def extract_features (welch : List ℚ → List ℚ × List ℚ) (hann : ℕ → List ℚ)
    (eeg_data : List EEGSample) : Option (List (String × ℚ)) :=
  if eeg_data.length < 256 then none
  else some ((channels.map
    (fun cp => band_block welch hann eeg_data cp.1 cp.2)).flatten)

/-- The fixed band-power feature schema actually produced: 7 features per
channel × 4 channels = 28 names, in extraction order. -/
def band_power_schema : List String :=
  ["tp9_delta", "tp9_theta", "tp9_alpha", "tp9_beta", "tp9_gamma",
   "tp9_total_power", "tp9_peak_freq",
   "af7_delta", "af7_theta", "af7_alpha", "af7_beta", "af7_gamma",
   "af7_total_power", "af7_peak_freq",
   "af8_delta", "af8_theta", "af8_alpha", "af8_beta", "af8_gamma",
   "af8_total_power", "af8_peak_freq",
   "tp10_delta", "tp10_theta", "tp10_alpha", "tp10_beta", "tp10_gamma",
   "tp10_total_power", "tp10_peak_freq"]

/-- Constant stand-in for `scipy.signal.welch` used for concrete
evaluations (the feature *names* do not depend on the spectral values). -/
def welch_const (_xs : List ℚ) : List ℚ × List ℚ := ([1], [1])

/-- Constant stand-in for `scipy.signal.windows.hann` used for concrete
evaluations. -/
def hann_const (n : ℕ) : List ℚ := List.replicate n 1

/-- A fixed 256-sample recording used for concrete evaluations. -/
def eeg_data_256 : List EEGSample :=
  List.replicate 256 { timestamp := 0, tp9 := 1, af7 := 2, af8 := 3, tp10 := 4 }

/-- C5 counterexample: on exactly 256 samples extraction succeeds but
returns 28 features (5 band powers, total power and peak frequency for each
of 4 channels), not 24 as the claim counts. -/
theorem C5_schema_size_counterexample :
    (extract_features welch_const hann_const eeg_data_256).map List.length
        = some 28 ∧
    (extract_features welch_const hann_const eeg_data_256).map List.length
        ≠ some 24 := by
  have h : (extract_features welch_const hann_const eeg_data_256).map
      List.length = some 28 := by
    simp only [extract_features, eeg_data_256]
    norm_num [band_block, channels, freq_bands, List.length_replicate]
  exact ⟨h, by rw [h]; simp⟩

/-- C5 amended: on fewer than 256 samples `extract_features` fails hard
(`none`, never a zero-filled result); on exactly 256 samples it succeeds and
the returned feature vector carries exactly the fixed band-power schema —
for each of the 4 channels the 5 band powers, the total power and the peak
frequency, i.e. 28 features — with no missing keys, for every choice of the
external spectral routines. -/
theorem C5_extract_features_schema
    (welch : List ℚ → List ℚ × List ℚ) (hann : ℕ → List ℚ)
    (eeg_data : List EEGSample) :
    (eeg_data.length < 256 → extract_features welch hann eeg_data = none) ∧
    (eeg_data.length = 256 → ∃ fs,
      extract_features welch hann eeg_data = some fs ∧
      fs.map Prod.fst = band_power_schema) := by
  constructor
  · intro h
    simp [extract_features, h]
  · intro h
    have hnot : ¬ eeg_data.length < 256 := by omega
    refine ⟨(channels.map
        (fun cp => band_block welch hann eeg_data cp.1 cp.2)).flatten,
      by simp [extract_features, hnot], ?_⟩
    have hblock : ∀ (channel : String) (proj : EEGSample → ℚ),
        (band_block welch hann eeg_data channel proj).map Prod.fst
          = (freq_bands.map (fun bd => channel ++ "_" ++ bd.1))
            ++ [channel ++ "_total_power", channel ++ "_peak_freq"] := by
      intro channel proj
      simp [band_block, hnot, List.map_append, List.map_map]
    simp only [List.map_flatten, List.map_map, channels, List.map_cons,
      List.map_nil, Function.comp]
    simp only [hblock, freq_bands, List.map_cons, List.map_nil]
    rfl

/-- C5 witness: the schema theorem applied to a 255-sample input (failure)
and to the concrete 256-sample input (success, full 28-name schema). -/
theorem C5_extract_features_schema_witness :
    extract_features welch_const hann_const
        (List.replicate 255 { timestamp := 0, tp9 := 1, af7 := 2,
                              af8 := 3, tp10 := 4 }) = none ∧
    ∃ fs, extract_features welch_const hann_const eeg_data_256 = some fs ∧
      fs.map Prod.fst = band_power_schema :=
  ⟨(C5_extract_features_schema welch_const hann_const _).1
      (by norm_num [List.length_replicate]),
   (C5_extract_features_schema welch_const hann_const eeg_data_256).2
      (by norm_num [eeg_data_256, List.length_replicate])⟩

/-- The per-sample feature vector of
`CognitiveLoadPredictor._extract_features`: the four raw channels, their
mean, and the two epsilon-guarded channel quotients. -/
def ml_feature_vector (s : EEGSample) : List ℚ :=
  let raw := [s.tp9, s.af7, s.af8, s.tp10]
  let avg_all := mean raw
  let r1 := s.tp9 / (s.af7 + 1 / 100000000)
  let r2 := s.af8 / (s.tp10 + 1 / 100000000)
  raw ++ [avg_all, r1, r2]

/-- `CognitiveLoadPredictor._extract_features(eeg_data)`: one feature row
per sample (the empty matrix for empty input). -/
def ml_extract_features (eeg_data : List EEGSample) : List (List ℚ) :=
  eeg_data.map ml_feature_vector

/-- Fitted `sklearn.preprocessing.StandardScaler` state: per-feature mean
and scale. -/
structure Scaler where
  mean_ : List ℚ
  scale_ : List ℚ
deriving DecidableEq

/-- `StandardScaler.transform` on one row: `(x - mean_) / scale_`
feature-wise. -/
def Scaler.transform (sc : Scaler) (x : List ℚ) : List ℚ :=
  (x.zip (sc.mean_.zip sc.scale_)).map (fun p => (p.1 - p.2.1) / p.2.2)

/-- Fitted `sklearn.linear_model.LinearRegression` state: coefficients and
intercept. -/
structure LinModel where
  coef_ : List ℚ
  intercept_ : ℚ
deriving DecidableEq

/-- `LinearRegression.predict` on one row: the dot product with the
coefficients plus the intercept. -/
def LinModel.predict1 (m : LinModel) (x : List ℚ) : ℚ :=
  ((m.coef_.zip x).map (fun p => p.1 * p.2)).sum + m.intercept_

/-- The train/validation split produced inside
`CognitiveLoadPredictor.train_model`. -/
structure TrainSplit where
  X_train : List (List ℚ)
  X_test : List (List ℚ)
  y_train : List ℚ
  y_test : List ℚ
deriving DecidableEq

/-- The data-split policy of `CognitiveLoadPredictor.train_model`: failure
on an empty example set, an sklearn `train_test_split` (stratified first
for ≥ 10 examples, plain for 5–9; both external, hence parameters) and the
degenerate policy `X_train = X_test = X` below 5 examples.  The subsequent
fitting and metric computation is sklearn's. -/
def train_model
    (split_strat split_plain : List (List ℚ) → List ℚ → TrainSplit)
    (X : List (List ℚ)) (y : List ℚ) : Option TrainSplit :=
  if X.length = 0 then none
  else if 10 ≤ X.length then some (split_strat X y)
  else if 5 ≤ X.length then some (split_plain X y)
  else some { X_train := X, X_test := X, y_train := y, y_test := y }

/-- `ConfusionModel.train(features_list, confusion_scores)` from
`adaptive_learning_backend.py`: returns `False` (refuses to train) on fewer
than 5 examples, `True` after fitting otherwise (the fit itself is
sklearn's). -/
def ConfusionModel_train (features_list : List (List (String × ℚ)))
    (_confusion_scores : List ℚ) : Bool :=
  if features_list.length < 5 then false else true

/-- C6 counterexample: the example-path `ConfusionModel.train` refuses a
single training example, while the claim says that 1–4 examples still
train. -/
theorem C6_confusion_train_counterexample :
    ConfusionModel_train [[("tp9_delta", 1)]] [5] = false := rfl

/-- C6 amended: `CognitiveLoadPredictor.train_model` fails on zero training
examples and, for 1–4 examples, trains with the full example set as both
training and evaluation split; `ConfusionModel.train`, in contrast, refuses
(returns failure) for any count below 5. -/
theorem C6_train_degenerate_policy
    (split_strat split_plain : List (List ℚ) → List ℚ → TrainSplit)
    (X : List (List ℚ)) (y : List ℚ) :
    (X = [] → train_model split_strat split_plain X y = none) ∧
    (1 ≤ X.length → X.length < 5 →
      train_model split_strat split_plain X y
        = some { X_train := X, X_test := X, y_train := y, y_test := y }) ∧
    (∀ fl scores, fl.length < 5 → ConfusionModel_train fl scores = false) := by
  refine ⟨?_, ?_, ?_⟩
  · intro h
    subst h
    rfl
  · intro h1 h5
    have h0 : ¬ X.length = 0 := by omega
    have h10 : ¬ 10 ≤ X.length := by omega
    have h5' : ¬ 5 ≤ X.length := by omega
    simp [train_model, h0, h10, h5']
  · intro fl scores h
    simp [ConfusionModel_train, h]

/-- Trivial stand-in for `sklearn.model_selection.train_test_split` used
for concrete evaluations. -/
def split_const (X : List (List ℚ)) (y : List ℚ) : TrainSplit :=
  { X_train := X, X_test := X, y_train := y, y_test := y }

/-- C6 witness: the degenerate policy at one concrete single-example
call, and the refusal of `ConfusionModel.train` on the same count. -/
theorem C6_train_degenerate_policy_witness :
    train_model split_const split_const [[1, 2, 3, 4, 5, 6, 7]] [2]
      = some { X_train := [[1, 2, 3, 4, 5, 6, 7]],
               X_test := [[1, 2, 3, 4, 5, 6, 7]],
               y_train := [2], y_test := [2] } ∧
    ConfusionModel_train [[("af7_theta", 1)]] [4] = false :=
  ⟨(C6_train_degenerate_policy split_const split_const
      [[1, 2, 3, 4, 5, 6, 7]] [2]).2.1 (by decide) (by decide),
   (C6_train_degenerate_policy split_const split_const [] []).2.2
      [[("af7_theta", 1)]] [4] (by decide)⟩

/-- `np.clip(x, lo, hi)`. -/
def clip (x lo hi : ℚ) : ℚ := min hi (max lo x)

/-- `np.round` (banker's rounding: ties go to the even integer). -/
def np_round_half_even (q : ℚ) : ℤ :=
  let f := ⌊q⌋
  let frac := q - f
  if frac < 1 / 2 then f
  else if 1 / 2 < frac then f + 1
  else if f % 2 = 0 then f else f + 1

/-- The state of `CognitiveLoadPredictor` relevant to prediction. -/
structure CognitiveLoadPredictor where
  model : LinModel
  scaler : Scaler
  is_trained : Bool
deriving DecidableEq

/-- One per-sample entry of the `individual_predictions` list returned by
`CognitiveLoadPredictor.predict`. -/
structure PredResult where
  raw_prediction : ℚ
  clamped_prediction : ℚ
  difficulty_level : ℤ
  confidence : ℚ
deriving DecidableEq

/-- `CognitiveLoadPredictor.predict(eeg_data)`: the untrained / empty-input
failures and the per-sample results (raw linear output, clamp to [1,3],
banker's rounding to the discrete level, confidence
`1 - |clamped - round(clamped)|`). -/
def CognitiveLoadPredictor.predict (p : CognitiveLoadPredictor)
    (eeg_data : List EEGSample) : Option (List PredResult) :=
  if p.is_trained = false then none
  else if eeg_data.isEmpty then none
  else
    let X := ml_extract_features eeg_data
    if X.isEmpty then none
    else some (X.map (fun x =>
      let pred := p.model.predict1 (p.scaler.transform x)
      let pred_clamped := clip pred 1 3
      let level := np_round_half_even pred_clamped
      { raw_prediction := pred,
        clamped_prediction := pred_clamped,
        difficulty_level := level,
        confidence := 1 - |pred_clamped - (level : ℚ)| }))

/-- The state of the backend's `ConfusionModel` relevant to prediction. -/
structure ConfusionModelState where
  model : LinModel
  scaler : Scaler
  is_trained : Bool
  feature_names : List String
deriving DecidableEq

/-- Python `features.get(name, 0)` on the feature dict. -/
def dict_get (features : List (String × ℚ)) (name : String) : ℚ :=
  match features.find? (fun p => p.1 == name) with
  | some p => p.2
  | none => 0

/-- `ConfusionModel.predict(features)` from `adaptive_learning_backend.py`:
`None` when untrained or the feature dict is empty (falsy), otherwise the
linear-model output on the scaled feature vector clamped to [1, 10] via
`max(1, min(10, prediction))`. -/
def ConfusionModel_predict (cm : ConfusionModelState)
    (features : List (String × ℚ)) : Option ℚ :=
  if cm.is_trained = false ∨ features.isEmpty = true then none
  else
    let feature_vector := cm.feature_names.map (dict_get features)
    let X_scaled := cm.scaler.transform feature_vector
    let prediction := cm.model.predict1 X_scaled
    some (max 1 (min 10 prediction))

/-- C7: prediction before any successful training fails (for both
regressors); once trained, every returned label is the linear-model output
on scaler-standardised features clamped to its valid domain — [1,3] for the
discrete difficulty predictor, [1,10] for the continuous confusion model —
and the discrete predictor's confidence is `1 - |clamped - round(clamped)|`. -/
theorem C7_predict_contract
    (p : CognitiveLoadPredictor) (cm : ConfusionModelState)
    (eeg_data : List EEGSample) (features : List (String × ℚ)) :
    (p.is_trained = false → p.predict eeg_data = none) ∧
    (cm.is_trained = false → ConfusionModel_predict cm features = none) ∧
    (∀ rs, p.predict eeg_data = some rs →
      rs.length = eeg_data.length ∧
      ∀ r ∈ rs, ∃ x ∈ ml_extract_features eeg_data,
        r.raw_prediction = p.model.predict1 (p.scaler.transform x) ∧
        r.clamped_prediction = clip r.raw_prediction 1 3 ∧
        1 ≤ r.clamped_prediction ∧ r.clamped_prediction ≤ 3 ∧
        r.difficulty_level = np_round_half_even r.clamped_prediction ∧
        r.confidence = 1 - |r.clamped_prediction -
          (np_round_half_even r.clamped_prediction : ℚ)|) ∧
    (∀ q, ConfusionModel_predict cm features = some q →
      q = max 1 (min 10 (cm.model.predict1 (cm.scaler.transform
            (cm.feature_names.map (dict_get features))))) ∧
      1 ≤ q ∧ q ≤ 10) := by
  refine ⟨?_, ?_, ?_, ?_⟩
  · intro h
    simp [CognitiveLoadPredictor.predict, h]
  · intro h
    simp [ConfusionModel_predict, h]
  · intro rs hrs
    unfold CognitiveLoadPredictor.predict at hrs
    split_ifs at hrs with h1 h2
    by_cases h3 : (ml_extract_features eeg_data).isEmpty = true
    · rw [if_pos h3] at hrs
      cases hrs
    rw [if_neg h3] at hrs
    simp only [Option.some.injEq] at hrs
    subst hrs
    constructor
    · simp [ml_extract_features]
    · intro r hr
      obtain ⟨x, hx, hxr⟩ := List.mem_map.mp hr
      refine ⟨x, hx, ?_⟩
      subst hxr
      refine ⟨rfl, rfl, ?_, ?_, rfl, rfl⟩
      · exact le_min (by norm_num) (le_max_left _ _)
      · exact min_le_left _ _
  · intro q hq
    unfold ConfusionModel_predict at hq
    split_ifs at hq with h1
    simp only [Option.some.injEq] at hq
    subst hq
    refine ⟨rfl, le_max_left _ _, ?_⟩
    exact max_le (by norm_num) (min_le_left _ _)

/-- Untrained difficulty predictor for the C7 witness. -/
def predictor_untrained : CognitiveLoadPredictor :=
  { model := { coef_ := [], intercept_ := 0 },
    scaler := { mean_ := [], scale_ := [] },
    is_trained := false }

/-- Untrained confusion model for the C7 witness. -/
def cmodel_untrained : ConfusionModelState :=
  { model := { coef_ := [], intercept_ := 0 },
    scaler := { mean_ := [], scale_ := [] },
    is_trained := false, feature_names := [] }

/-- Trained one-feature confusion model for the C7 witness. -/
def cmodel_trained : ConfusionModelState :=
  { model := { coef_ := [1], intercept_ := 0 },
    scaler := { mean_ := [0], scale_ := [1] },
    is_trained := true, feature_names := ["tp9_delta"] }

/-- C7 witness: the contract applied to untrained predictors (failure) and
to one trained concrete prediction (in-range clamped output). -/
theorem C7_predict_contract_witness :
    predictor_untrained.predict [] = none ∧
    ConfusionModel_predict cmodel_untrained [] = none ∧
    (1 : ℚ) ≤ 4 ∧ (4 : ℚ) ≤ 10 :=
  ⟨(C7_predict_contract predictor_untrained cmodel_untrained [] []).1 rfl,
   (C7_predict_contract predictor_untrained cmodel_untrained [] []).2.1 rfl,
   ((C7_predict_contract predictor_untrained cmodel_trained []
        [("tp9_delta", 4)]).2.2.2 4
      (by norm_num [ConfusionModel_predict, cmodel_trained, dict_get,
        Scaler.transform, LinModel.predict1, max_def, min_def])).2⟩

/-- Appending to a `collections.deque(maxlen=C)`: entries beyond the
capacity are evicted from the old end. -/
def deque_append {α : Type} (maxlen : ℕ) (buf : List α) (x : α) : List α :=
  let b := buf ++ [x]
  b.drop (b.length - maxlen)

/-- An incoming OSC message: its numeric arguments and arrival time
(`time.time()` at the handler call). -/
structure OscEvent where
  args : List ℚ
  time : ℚ
deriving DecidableEq

/-- The sample record `eeg_handler` builds from a message with at least
four arguments (`args[0] .. args[3]`). -/
def event_sample (ev : OscEvent) : EEGSample :=
  { timestamp := ev.time,
    tp9 := ev.args.getD 0 0, af7 := ev.args.getD 1 0,
    af8 := ev.args.getD 2 0, tp10 := ev.args.getD 3 0 }

/-- The mutable state of `EEGService` touched by `eeg_handler`. -/
structure EEGServiceState where
  is_connected : Bool
  last_data_time : Option ℚ
  data_count : ℕ
  recent_data : List EEGSample
deriving DecidableEq

/-- `EEGService.__init__`: disconnected, no data yet, empty
`deque(maxlen=100)`. -/
def initEEGServiceState : EEGServiceState :=
  { is_connected := false, last_data_time := none,
    data_count := 0, recent_data := [] }

/-- `EEGService.eeg_handler`: messages with fewer than four arguments are
ignored; otherwise the connection flips on, timing and count update, and
the sample joins the 100-capacity ring buffer. -/
def eeg_handler (st : EEGServiceState) (ev : OscEvent) : EEGServiceState :=
  if 4 ≤ ev.args.length then
    { is_connected := true,
      last_data_time := some ev.time,
      data_count := st.data_count + 1,
      recent_data := deque_append 100 st.recent_data (event_sample ev) }
  else st

theorem deque_append_length {α : Type} (C : ℕ) (buf : List α) (x : α) :
    (deque_append C buf x).length = min (buf.length + 1) C := by
  simp only [deque_append, List.length_drop, List.length_append,
    List.length_cons, List.length_nil]
  omega

theorem drop_append_drop {α : Type} (l ys : List α) (a b : ℕ)
    (h : a ≤ l.length) :
    (l.drop a ++ ys).drop b = (l ++ ys).drop (a + b) := by
  rw [List.drop_append_eq_append_drop, List.drop_append_eq_append_drop,
    List.drop_drop, List.length_drop]
  have h2 : b - (l.length - a) = a + b - l.length := by omega
  rw [h2]

theorem foldl_deque_append {α : Type} (C : ℕ) (xs : List α) :
    ∀ buf : List α, buf.length ≤ C →
      xs.foldl (deque_append C) buf
        = (buf ++ xs).drop (buf.length + xs.length - C) := by
  induction xs with
  | nil =>
    intro buf hb
    simp only [List.foldl_nil, List.append_nil, List.length_nil]
    have h0 : buf.length + 0 - C = 0 := by omega
    rw [h0, List.drop_zero]
  | cons x xs ih =>
    intro buf hb
    simp only [List.foldl_cons]
    rw [ih (deque_append C buf x) (by rw [deque_append_length]; omega)]
    have hd : deque_append C buf x = (buf ++ [x]).drop (buf.length + 1 - C) := by
      simp [deque_append]
    rw [deque_append_length, hd,
      drop_append_drop (buf ++ [x]) xs (buf.length + 1 - C) _
        (by simp only [List.length_append, List.length_cons, List.length_nil]; omega)]
    have harr : buf.length + 1 - C + (min (buf.length + 1) C + xs.length - C)
        = buf.length + (x :: xs).length - C := by
      simp only [List.length_cons]
      omega
    rw [harr, List.append_assoc, List.singleton_append]

theorem foldl_eeg_handler_length (events : List OscEvent) :
    ∀ st : EEGServiceState, st.recent_data.length ≤ 100 →
      (events.foldl eeg_handler st).recent_data.length ≤ 100 := by
  induction events with
  | nil => exact fun st h => h
  | cons e es ih =>
    intro st h
    simp only [List.foldl_cons]
    apply ih
    unfold eeg_handler
    by_cases hv : 4 ≤ e.args.length
    · rw [if_pos hv]
      show (deque_append 100 st.recent_data (event_sample e)).length ≤ 100
      rw [deque_append_length]
      omega
    · rw [if_neg hv]
      exact h

theorem foldl_eeg_handler_valid (events : List OscEvent) :
    ∀ st : EEGServiceState, (∀ e ∈ events, 4 ≤ e.args.length) →
      (events.foldl eeg_handler st).recent_data
        = (events.map event_sample).foldl (deque_append 100) st.recent_data := by
  induction events with
  | nil => exact fun st _ => rfl
  | cons e es ih =>
    intro st hv
    simp only [List.foldl_cons, List.map_cons]
    rw [ih _ (fun x hx => hv x (List.mem_cons_of_mem e hx))]
    congr 1
    unfold eeg_handler
    rw [if_pos (hv e (List.mem_cons_self e es))]

/-- C8: the ring buffer never exceeds its capacity: for any capacity `C`
the fold of `deque_append` over a stream keeps exactly the last `C`
elements in arrival order, and through `eeg_handler` (capacity 100) any
message sequence leaves at most 100 buffered samples, with a stream of
well-formed messages leaving exactly the most recent 100 samples. -/
theorem C8_ring_buffer (C : ℕ) (xs : List EEGSample)
    (events : List OscEvent) :
    ((xs.foldl (deque_append C) []).length ≤ C) ∧
    (xs.foldl (deque_append C) [] = xs.drop (xs.length - C)) ∧
    ((events.foldl eeg_handler initEEGServiceState).recent_data.length ≤ 100) ∧
    ((∀ e ∈ events, 4 ≤ e.args.length) →
      (events.foldl eeg_handler initEEGServiceState).recent_data
        = (events.map event_sample).drop (events.length - 100)) := by
  have hfold : xs.foldl (deque_append C) [] = xs.drop (xs.length - C) := by
    rw [foldl_deque_append C xs [] (by simp)]
    simp
  refine ⟨?_, hfold, ?_, ?_⟩
  · rw [hfold]
    simp only [List.length_drop]
    omega
  · exact foldl_eeg_handler_length events initEEGServiceState (by simp [initEEGServiceState])
  · intro hv
    rw [foldl_eeg_handler_valid events initEEGServiceState hv]
    show (events.map event_sample).foldl (deque_append 100) [] = _
    rw [foldl_deque_append 100 (events.map event_sample) [] (by simp)]
    simp

/-- C8 witness: the exact-content property applied to a concrete two-message
stream of well-formed messages. -/
theorem C8_ring_buffer_witness :
    ([(⟨[1, 2, 3, 4], 0⟩ : OscEvent), ⟨[5, 6, 7, 8], 1⟩].foldl
        eeg_handler initEEGServiceState).recent_data
      = ([(⟨[1, 2, 3, 4], 0⟩ : OscEvent), ⟨[5, 6, 7, 8], 1⟩].map
          event_sample).drop
          ([(⟨[1, 2, 3, 4], 0⟩ : OscEvent), ⟨[5, 6, 7, 8], 1⟩].length - 100) :=
  (C8_ring_buffer 0 [] [⟨[1, 2, 3, 4], 0⟩, ⟨[5, 6, 7, 8], 1⟩]).2.2.2
    (by decide)

/-- `EEGService._get_connection_quality`, as a pure function of the state
it reads: the connection flag, the buffered samples and the clock. -/
def get_connection_quality (is_connected : Bool)
    (recent_data : List EEGSample) (current_time : ℚ) : String :=
  let recent_samples := recent_data.filter
    (fun s => decide (current_time - s.timestamp ≤ 1))
  let sample_rate := recent_samples.length
  if is_connected = false then "disconnected"
  else if 200 ≤ sample_rate then "excellent"
  else if 100 ≤ sample_rate then "good"
  else if 50 ≤ sample_rate then "fair"
  else "poor"

/-- The count of buffered samples inside the trailing 1-second window,
exactly as `_get_connection_quality` computes it. -/
def window_count (recent_data : List EEGSample) (current_time : ℚ) : ℕ :=
  (recent_data.filter (fun s => decide (current_time - s.timestamp ≤ 1))).length

/-- C9: the quality tier is a pure function of (connected, trailing-1s
sample count); disconnected overrides every tier; counts ≥200, ≥100, ≥50
and below map to "excellent", "good", "fair", "poor"; a count of exactly
150 while connected yields "good". -/
theorem C9_connection_quality (c : Bool) (d1 d2 : List EEGSample)
    (t1 t2 : ℚ) :
    (window_count d1 t1 = window_count d2 t2 →
      get_connection_quality c d1 t1 = get_connection_quality c d2 t2) ∧
    (get_connection_quality false d1 t1 = "disconnected") ∧
    (200 ≤ window_count d1 t1 →
      get_connection_quality true d1 t1 = "excellent") ∧
    (100 ≤ window_count d1 t1 → window_count d1 t1 < 200 →
      get_connection_quality true d1 t1 = "good") ∧
    (50 ≤ window_count d1 t1 → window_count d1 t1 < 100 →
      get_connection_quality true d1 t1 = "fair") ∧
    (window_count d1 t1 < 50 →
      get_connection_quality true d1 t1 = "poor") ∧
    (window_count d1 t1 = 150 →
      get_connection_quality true d1 t1 = "good") := by
  have hq : ∀ (b : Bool) (d : List EEGSample) (t : ℚ),
      get_connection_quality b d t
        = if b = false then "disconnected"
          else if 200 ≤ window_count d t then "excellent"
          else if 100 ≤ window_count d t then "good"
          else if 50 ≤ window_count d t then "fair"
          else "poor" := fun _ _ _ => rfl
  refine ⟨?_, ?_, ?_, ?_, ?_, ?_, ?_⟩
  · intro h
    rw [hq, hq, h]
  · rw [hq]
    rfl
  · intro h
    rw [hq, if_neg (by simp), if_pos h]
  · intro h1 h2
    rw [hq, if_neg (by simp), if_neg (by omega), if_pos h1]
  · intro h1 h2
    rw [hq, if_neg (by simp), if_neg (by omega), if_neg (by omega), if_pos h1]
  · intro h
    rw [hq, if_neg (by simp), if_neg (by omega), if_neg (by omega),
      if_neg (by omega)]
  · intro h
    rw [hq, if_neg (by simp), if_neg (by omega), if_pos (by omega)]

/-- C9 witness: 150 buffered samples inside the trailing second while
connected yield "good". -/
theorem C9_connection_quality_witness :
    get_connection_quality true
        (List.replicate 150
          { timestamp := 10, tp9 := 0, af7 := 0, af8 := 0, tp10 := 0 })
        10 = "good" :=
  (C9_connection_quality true
      (List.replicate 150
        { timestamp := 10, tp9 := 0, af7 := 0, af8 := 0, tp10 := 0 })
      [] 10 0).2.2.2.2.2.2
    (by
      unfold window_count
      rw [List.filter_eq_self.mpr ?_, List.length_replicate]
      intro a ha
      rw [List.eq_of_mem_replicate ha]
      norm_num)

theorem get_next_flashcard_sel_eq_none_iff (cards : List Flashcard)
    (now : ℚ) : get_next_flashcard_sel cards now = none ↔ cards = [] := by
  constructor
  · intro hnone
    by_contra hne
    unfold get_next_flashcard_sel at hnone
    rw [if_neg (by simpa using hne)] at hnone
    obtain ⟨m, hm⟩ :=
      pyMax_isSome (priority_score now) _ (due_cards_of_ne_nil cards now hne)
    rw [hm] at hnone
    cases hnone
  · intro h
    subst h
    rfl

/-- The state of `AdaptiveLearningSystem` touched by `get_next_flashcard`:
the shared EEG ring buffer and the flashcard collection (in dict insertion
order). -/
structure AdaptiveLearningSystem where
  eeg_buffer : List EEGSample
  flashcards : List Flashcard
deriving DecidableEq

/-- The card-info dict returned by `get_next_flashcard`. -/
structure CardInfo where
  card_id : String
  front : String
  back : String
  avg_confusion : ℚ
  repetitions : ℕ
deriving DecidableEq

/-- `AdaptiveLearningSystem.get_next_flashcard`: selects a card by
`get_next_flashcard_sel` and, whenever one exists, clears the EEG ring
buffer (`self.eeg_buffer.clear()`) before returning the card info — the
call mutates the system state. -/
def AdaptiveLearningSystem.get_next_flashcard (sys : AdaptiveLearningSystem)
    (now : ℚ) : Option CardInfo × AdaptiveLearningSystem :=
  match get_next_flashcard_sel sys.flashcards now with
  | none => (none, sys)
  | some c =>
    (some { card_id := c.id, front := c.front, back := c.back,
            avg_confusion := c.avg_confusion, repetitions := c.repetitions },
     { sys with eeg_buffer := [] })

/-- C10: whenever `get_next_flashcard` returns a card (exactly when at
least one flashcard exists), it also empties the shared EEG sample ring
buffer as a side effect — every buffered sample accumulated before the call
is discarded; with no cards the state is left untouched. -/
theorem C10_next_card_clears_buffer (sys : AdaptiveLearningSystem)
    (now : ℚ) :
    (sys.flashcards ≠ [] →
      (sys.get_next_flashcard now).1.isSome = true ∧
      (sys.get_next_flashcard now).2.eeg_buffer = [] ∧
      (sys.get_next_flashcard now).2.flashcards = sys.flashcards) ∧
    (sys.flashcards = [] → sys.get_next_flashcard now = (none, sys)) := by
  constructor
  · intro h
    unfold AdaptiveLearningSystem.get_next_flashcard
    cases hsel : get_next_flashcard_sel sys.flashcards now with
    | none =>
      exact absurd ((get_next_flashcard_sel_eq_none_iff _ _).mp hsel) h
    | some c =>
      exact ⟨rfl, rfl, rfl⟩
  · intro h
    unfold AdaptiveLearningSystem.get_next_flashcard
    rw [(get_next_flashcard_sel_eq_none_iff sys.flashcards now).mpr h]

/-- Concrete system with one buffered sample and one card for the C10
witness. -/
def sys_concrete : AdaptiveLearningSystem :=
  { eeg_buffer := [{ timestamp := 0, tp9 := 1, af7 := 1, af8 := 1, tp10 := 1 }],
    flashcards := [newFlashcard "front" "back" "id1" 0] }

/-- C10 witness: selecting the next card on the concrete one-card system
returns a card and leaves the buffer empty. -/
theorem C10_next_card_clears_buffer_witness :
    (sys_concrete.get_next_flashcard 0).1.isSome = true ∧
    (sys_concrete.get_next_flashcard 0).2.eeg_buffer = [] ∧
    (sys_concrete.get_next_flashcard 0).2.flashcards = sys_concrete.flashcards :=
  (C10_next_card_clears_buffer sys_concrete 0).1
    (by simp [sys_concrete])
